import Mathlib

/-!
Verification of the saq queue engine (`src/saq/queue.py`, `src/saq/job.py`)
against its natural-language specification.

The shared Redis-class store is embedded as an explicit `Store` value;
every queue operation is a pure function from a store (plus the current
time, passed explicitly) to a store, together with the list of primitive
store commands (`Op`) the operation issues, in order.  Times are epoch
milliseconds (`Int`) where the source uses `now()`, and epoch seconds
(`ℚ`, since `time.time()` and `seconds()` are fractional) where the
source uses seconds; sorted-set scores are `ℚ` for the same reason.
-/

namespace Saq

/-- Job status enum, from `saq/job.py` (`class Status`). -/
inductive Status where
  | new
  | deferred
  | queued
  | active
  | aborted
  | failed
  | complete
deriving DecidableEq, Repr

/-- Modelled from the spec: `TERMINAL_STATUSES` is imported by `queue.py` from a
newer `saq/job.py` that is not under `src/`; §3 of the spec defines
Terminal = \x7bCOMPLETE, FAILED, ABORTED\x7d. -/
def TERMINAL_STATUSES : List Status := [.complete, .failed, .aborted]

/-- Modelled from the spec: Unsuccessful-terminal = \x7bFAILED, ABORTED\x7d (§3),
imported by `queue.py` from the newer `saq/job.py` missing from `src/`. -/
def UNSUCCESSFUL_TERMINAL_STATUSES : List Status := [.failed, .aborted]

/-- The job record, following the `Job` dataclass of `saq/job.py` (defaults
included) plus the fields the newer `queue.py` manipulates: `id` is the full
store id string (`saq:job:<queue>:<key>`), `queued` is the enqueue stamp set
by `Queue.enqueue`, `progress` is assigned by `finish`/`retry`, and
`nextRetryDelay` is modelled from the spec (§9: `Job.next_retry_delay` is an
extension hook, default no delay = 0, falsy = immediate requeue). -/
structure Job where
  id : String
  timeout : Int := 10
  heartbeat : Int := 0
  retries : Int := 1
  ttl : Int := 60
  scheduled : Int := 0
  attempts : Int := 0
  completed : Int := 0
  queued : Int := 0
  started : Int := 0
  touched : Int := 0
  progress : ℚ := 0
  result : Option Int := none
  error : Option String := none
  status : Status := .new
  nextRetryDelay : Int := 0
deriving DecidableEq, Repr

/-- The bytes stored under a job id key: either empty bytes (falsy in
`Queue.deserialize`) or serialized job data carrying the embedded queue
name, as produced by `Queue.serialize` (`dump(job.to_dict())`). -/
inductive JobBytes where
  | empty
  | data (queue : String) (job : Job)
deriving DecidableEq, Repr

/-- Association-list lookup on string-keyed pairs (redis GET / ZSCORE /
EXISTS are expressed through it). -/
def alookup {β : Type} (l : List (String × β)) (k : String) : Option β :=
  match l with
  | [] => none
  | (k', v) :: rest => if k' = k then some v else alookup rest k

/-- Association-list update-or-append: redis SET / SETEX / ZADD semantics
(an existing member keeps its position, its value is replaced; a new member
is appended). -/
def aset {β : Type} (l : List (String × β)) (k : String) (v : β) : List (String × β) :=
  match l with
  | [] => [(k, v)]
  | (k', v') :: rest => if k' = k then (k, v) :: rest else (k', v') :: aset rest k v

/-- Association-list removal: redis DEL / ZREM semantics. -/
def aremove {β : Type} (l : List (String × β)) (k : String) : List (String × β) :=
  match l with
  | [] => []
  | (k', v) :: rest => if k' = k then aremove rest k else (k', v) :: aremove rest k

/-- LREM with count 0: remove every occurrence. -/
def lremAll (l : List String) (x : String) : List String :=
  l.filter (fun y => y ≠ x)

/-- LREM with count 1: remove the first occurrence from the head. -/
def lremOne (l : List String) (x : String) : List String :=
  l.erase x

/-- Ordering used by ZRANGEBYSCORE: ascending score, ties broken by member. -/
def scoreLe (a b : String × ℚ) : Bool :=
  a.2 < b.2 || (a.2 = b.2 && a.1 ≤ b.1)

/-- Insertion into a score-sorted list. -/
def insertSorted (x : String × ℚ) : List (String × ℚ) → List (String × ℚ)
  | [] => [x]
  | y :: ys => if scoreLe x y then x :: y :: ys else y :: insertSorted x ys

/-- Insertion sort by score (redis sorted sets iterate in score order). -/
def sortByScore : List (String × ℚ) → List (String × ℚ)
  | [] => []
  | x :: xs => insertSorted x (sortByScore xs)

/-- ZRANGEBYSCORE: members whose score lies in the inclusive range, in
score order. -/
def zrangebyscore (z : List (String × ℚ)) (lo hi : ℚ) : List String :=
  (sortByScore (z.filter (fun p => decide (lo ≤ p.2 ∧ p.2 ≤ hi)))).map Prod.fst

/-- The shared store of one queue: job records, the `incomplete` sorted
set, the `queued` and `active` lists, abort-marker keys, the two lock keys
(the stored value is the TTL they were set with), and the pub/sub messages
published so far (channel, status), in order. -/
structure Store where
  records : List (String × JobBytes) := []
  incomplete : List (String × ℚ) := []
  queued : List String := []
  active : List String := []
  abortMarkers : List (String × String) := []
  scheduleLock : Option Int := none
  sweepLock : Option Int := none
  published : List (String × Status) := []
deriving DecidableEq, Repr

/-- Primitive store commands, recorded in issue order by each operation. -/
inductive Op where
  | lrem (key : String) (count : Int) (value : String)
  | zrem (key : String) (value : String)
  | zadd (key : String) (score : ℚ) (value : String)
  | rpush (key : String) (value : String)
  | setKey (key : String) (value : JobBytes)
  | setex (key : String) (ttl : Int) (value : JobBytes)
  | setexMarker (key : String) (ttl : Int) (value : String)
  | expire (key : String) (ttl : Int)
  | del (key : String)
  | publish (channel : String) (status : Status)
deriving DecidableEq, Repr

/-- Key naming, `Queue.namespace` in `queue.py`. -/
def namespaceKey (q part : String) : String := "saq:" ++ q ++ ":" ++ part

/-- Full job id, `Queue.job_id` in `queue.py` (`ID_PREFIX` = "saq:job:"). -/
def jobIdOf (q key : String) : String := "saq:job:" ++ q ++ ":" ++ key

/-- Abort-marker key for a job id (`job.abort_id` = id + ":abort"). -/
def abortIdOf (id : String) : String := id ++ ":abort"

/-- Modelled from the spec: `saq.utils.seconds` (utils.py is not under
`src/`); converts epoch milliseconds to fractional seconds, exact as a
rational. -/
def seconds (ms : Int) : ℚ := Rat.divInt ms 1000

/-- Queue.serialize: dump the job together with the owning queue's name. -/
def serialize (q : String) (j : Job) : JobBytes := .data q j

/-- Queue.deserialize: falsy bytes (missing key or empty) give `none`;
otherwise the embedded queue name is asserted to match and the job is
rebuilt. The assertion failure is the `Except.error` case. -/
def deserialize (q : String) (b : Option JobBytes) : Except String (Option Job) :=
  match b with
  | none => .ok none
  | some .empty => .ok none
  | some (.data qn j) =>
      if qn = q then .ok (some j)
      else .error ("Job fetched by wrong queue: " ++ q)

/-- Job.stuck from `saq/job.py`: an ACTIVE job past its timeout, or past
its heartbeat when a heartbeat is set (`self.heartbeat and ...` is the
truthiness test `heartbeat ≠ 0`). -/
def Job.stuck (j : Job) (current : Int) : Bool :=
  j.status == .active &&
    (decide ((j.timeout : ℚ) < seconds (current - j.started)) ||
      (j.heartbeat != 0 && decide ((j.heartbeat : ℚ) < seconds (current - j.touched))))

/-- The atomic enqueue script of `Queue.enqueue` (`queue.py`): if the id has
no score in `incomplete` and no abort-marker key exists, store the record,
add the id to `incomplete` with score = scheduled, push onto `queued`
exactly when the scheduled argument is the string "0", and return 1;
otherwise return nil and change nothing. -/
def enqueueScript (q id : String) (serialized : JobBytes) (sched : Int) (s : Store) :
    Bool × Store × List Op :=
  if (alookup s.incomplete id).isNone && (alookup s.abortMarkers (abortIdOf id)).isNone then
    (true,
      { s with
        records := aset s.records id serialized
        incomplete := aset s.incomplete id ((sched : ℚ))
        queued := if sched = 0 then s.queued ++ [id] else s.queued },
      [.setKey id serialized, .zadd (namespaceKey q "incomplete") (sched : ℚ) id] ++
        (if sched = 0 then [.rpush (namespaceKey q "queued") id] else []))
  else
    (false, s, [])

/-- The job mutation `Queue.enqueue` performs before the callbacks and the
script run: `job.queued = now(); job.status = Status.QUEUED` (binding
`job.queue = self` has no counterpart in the record model). -/
def prepareJob (j : Job) (currentMs : Int) : Job :=
  { j with queued := currentMs, status := .queued }

/-- Queue._before_enqueue: await each registered callback in registration
order; a raised exception propagates and stops the iteration. Callbacks
are state-passing (`σ`) so that their execution order is observable. -/
def runBeforeEnqueues {σ ε : Type} (cbs : List (Job → σ → Except ε σ)) (j : Job) (st : σ) :
    Except ε σ :=
  match cbs with
  | [] => .ok st
  | cb :: rest =>
      match cb j st with
      | .ok st' => runBeforeEnqueues rest j st'
      | .error e => .error e

/-- Queue.enqueue: prepare the job, run the before-enqueue callbacks, then
run the atomic script; a nil script result is surfaced as `none`, a
callback exception propagates with the store untouched and no commands
issued. -/
def enqueue {σ ε : Type} (q : String) (cbs : List (Job → σ → Except ε σ)) (j : Job)
    (currentMs : Int) (st : σ) (s : Store) : Except ε (Option Job) × Store × List Op :=
  let j' := prepareJob j currentMs
  match runBeforeEnqueues cbs j' st with
  | .error e => (.error e, s, [])
  | .ok _ =>
      let r := enqueueScript q j'.id (serialize q j') j'.scheduled s
      (if r.1 then .ok (some j') else .ok none, r.2.1, r.2.2)

/-- The schedule script of `Queue.schedule`: under the TTL lock, promote
every `incomplete` member with score in [1, now-seconds] by re-scoring it
to 0 and right-pushing it onto `queued`, returning the promoted ids; when
the lock key exists the script falls through and returns nil. -/
def schedule (lockTtl : Int) (nowSec : ℚ) (s : Store) : Option (List String) × Store :=
  if s.scheduleLock.isSome then
    (none, s)
  else
    let due := zrangebyscore s.incomplete 1 nowSec
    (some due,
      { s with
        scheduleLock := some lockTtl
        incomplete := due.foldl (fun z id => aset z id (0 : ℚ)) s.incomplete
        queued := s.queued ++ due })

/-- Queue.dequeue: the blocking BLMOVE from the tail of `queued` to the
head of `active` (RPUSH producers + RIGHT-side pop); an empty `queued`
stands for the timeout case, returning absent. -/
def dequeue (s : Store) : Option String × Store :=
  match s.queued.getLast? with
  | none => (none, s)
  | some id => (some id, { s with queued := s.queued.dropLast, active := id :: s.active })

/-- The record-retention command finish issues, by the sign of `ttl`:
SETEX when positive, plain SET when zero, DEL when negative. -/
def retainOp (id : String) (ttl : Int) (b : JobBytes) : Op :=
  if 0 < ttl then .setex id ttl b else if ttl = 0 then .setKey id b else .del id

/-- Queue.finish: set status/result/error, stamp `completed`, set
progress to 1 on COMPLETE; in one transaction LREM(active, 1, id),
ZREM(incomplete, id), then retain or delete the record per `ttl`; publish
the new status after the transaction. -/
def finish (q : String) (j : Job) (status : Status) (result : Option Int)
    (error : Option String) (currentMs : Int) (s : Store) : Job × Store × List Op :=
  let j' := { j with
    status := status, result := result, error := error, completed := currentMs
    progress := if status = .complete then 1 else j.progress }
  let records' :=
    if 0 < j'.ttl then aset s.records j.id (serialize q j')
    else if j'.ttl = 0 then aset s.records j.id (serialize q j')
    else aremove s.records j.id
  (j',
    { s with
      active := lremOne s.active j.id
      incomplete := aremove s.incomplete j.id
      records := records'
      published := s.published ++ [(j.id, status)] },
    [.lrem (namespaceKey q "active") 1 j.id, .zrem (namespaceKey q "incomplete") j.id,
      retainOp j.id j'.ttl (serialize q j'), .publish j.id status])

/-- Queue.retry: reset the job to QUEUED, clear completed/started/progress,
stamp `touched`; in one transaction LREM(active, 1, id), LREM(queued, 1,
id), then either ZADD(incomplete, time_now + delay, id) when a retry delay
is set, or ZADD(incomplete, job.scheduled, id) and RPUSH(queued, id);
persist the record and publish. -/
def retry (q : String) (j : Job) (error : Option String) (currentMs : Int) (timeNow : ℚ)
    (s : Store) : Job × Store × List Op :=
  let j' := { j with
    status := .queued, error := error, completed := 0, started := 0, progress := 0,
    touched := currentMs }
  if j.nextRetryDelay ≠ 0 then
    (j',
      { s with
        active := lremOne s.active j.id
        queued := lremOne s.queued j.id
        incomplete := aset s.incomplete j.id (timeNow + (j.nextRetryDelay : ℚ))
        records := aset s.records j.id (serialize q j')
        published := s.published ++ [(j.id, .queued)] },
      [.lrem (namespaceKey q "active") 1 j.id, .lrem (namespaceKey q "queued") 1 j.id,
        .zadd (namespaceKey q "incomplete") (timeNow + (j.nextRetryDelay : ℚ)) j.id,
        .setKey j.id (serialize q j'), .publish j.id .queued])
  else
    (j',
      { s with
        active := lremOne s.active j.id
        queued := lremOne s.queued j.id ++ [j.id]
        incomplete := aset s.incomplete j.id ((j.scheduled : ℚ))
        records := aset s.records j.id (serialize q j')
        published := s.published ++ [(j.id, .queued)] },
      [.lrem (namespaceKey q "active") 1 j.id, .lrem (namespaceKey q "queued") 1 j.id,
        .zadd (namespaceKey q "incomplete") ((j.scheduled : ℚ)) j.id,
        .rpush (namespaceKey q "queued") j.id,
        .setKey j.id (serialize q j'), .publish j.id .queued])

/-- Queue.abort: one transaction LREM(queued, 0, id) (whose removal count
is `dequeued`), ZREM(incomplete, id), EXPIRE(job_id, ttl+1),
SETEX(abort_id, ttl, error); if the job was still queued, finish it with
ABORTED and delete the marker, otherwise LREM(active, 0, id). -/
def abort (q : String) (j : Job) (error : String) (ttl : Int) (currentMs : Int) (s : Store) :
    Store × List Op :=
  let dequeued := s.queued.count j.id
  let s1 := { s with
    queued := lremAll s.queued j.id
    incomplete := aremove s.incomplete j.id
    abortMarkers := aset s.abortMarkers (abortIdOf j.id) error }
  let tr1 : List Op :=
    [.lrem (namespaceKey q "queued") 0 j.id, .zrem (namespaceKey q "incomplete") j.id,
      .expire j.id (ttl + 1), .setexMarker (abortIdOf j.id) ttl error]
  if dequeued ≠ 0 then
    let r := finish q j .aborted none (some error) currentMs s1
    ({ r.2.1 with abortMarkers := aremove r.2.1.abortMarkers (abortIdOf j.id) },
      tr1 ++ r.2.2 ++ [.del (abortIdOf j.id)])
  else
    ({ s1 with active := lremAll s1.active j.id },
      tr1 ++ [.lrem (namespaceKey q "active") 0 j.id])

/-- The MGET of `Queue.sweep`: every id of the `active` snapshot paired
with the bytes currently stored under it. -/
def sweepFetch (s : Store) : List (String × Option JobBytes) :=
  s.active.map (fun id => (id, alookup s.records id))

/-- The classification loop of `Queue.sweep` over the prefetched
(id, bytes) pairs: a falsy record is an orphan (LREM(active, 0, id),
ZREM(incomplete, id), count as swept); a record whose status is not
ACTIVE or which is stuck is finished ABORTED "swept" and counted; anything
else is skipped. A wrong-queue record propagates the deserialize
assertion. -/
def sweepLoop (q : String) (currentMs : Int) :
    List (String × Option JobBytes) → Store → Except String (List String × Store)
  | [], s => .ok ([], s)
  | (id, b) :: rest, s =>
      match deserialize q b with
      | .error e => .error e
      | .ok none =>
          let s' := { s with
            active := lremAll s.active id
            incomplete := aremove s.incomplete id }
          (sweepLoop q currentMs rest s').map (fun r => (id :: r.1, r.2))
      | .ok (some j) =>
          if j.status != .active || j.stuck currentMs then
            let r := finish q j .aborted none (some "swept") currentMs s
            (sweepLoop q currentMs rest r.2.1).map (fun r' => (id :: r'.1, r'.2))
          else
            sweepLoop q currentMs rest s

/-- Queue.sweep: under the TTL lock, snapshot `active`, MGET the records,
and run the classification loop; when the lock key exists the script
returns nil and nothing is swept. -/
def sweep (q : String) (lockTtl : Int) (currentMs : Int) (s : Store) :
    Except String (List String × Store) :=
  if s.sweepLock.isSome then
    .ok ([], s)
  else
    let s0 := { s with sweepLock := some lockTtl }
    sweepLoop q currentMs (sweepFetch s0) s0

/-- One aggregated entry of `Queue.map`: a job's result value, or the
JobError substituted when `return_exceptions` is true. -/
inductive MapResult where
  | value (v : Option Int)
  | jobError (j : Job)
deriving DecidableEq, Repr

/-- Membership in UNSUCCESSFUL_TERMINAL_STATUSES, as the aggregation loop
tests it. -/
def unsuccessful (st : Status) : Bool :=
  st ∈ UNSUCCESSFUL_TERMINAL_STATUSES

/-- The aggregation step of `Queue.map` (its final `for job in jobs` loop):
fetched records arrive in input order; a missing record is skipped; an
unsuccessful terminal job raises a JobError when `return_exceptions` is
false and is substituted as a value otherwise; anything else contributes
its result. -/
def aggregateResults (returnExceptions : Bool) : List (Option Job) → Except Job (List MapResult)
  | [] => .ok []
  | none :: rest => aggregateResults returnExceptions rest
  | some j :: rest =>
      if unsuccessful j.status then
        if !returnExceptions then .error j
        else (aggregateResults returnExceptions rest).map (fun l => .jobError j :: l)
      else
        (aggregateResults returnExceptions rest).map (fun l => .value j.result :: l)

/-- Queue.job / Queue._get_job_by_id: GET the bytes under the id and
deserialize them. -/
def getJobById (q : String) (id : String) (s : Store) : Except String (Option Job) :=
  deserialize q (alookup s.records id)

theorem alookup_aset_self {β : Type} (l : List (String × β)) (k : String) (v : β) :
    alookup (aset l k v) k = some v := by
  induction l with
  | nil => simp [aset, alookup]
  | cons p rest ih =>
      obtain ⟨k', v'⟩ := p
      by_cases h : k' = k
      · simp [aset, h, alookup]
      · simp [aset, h, alookup, ih]

theorem alookup_aset_ne {β : Type} (l : List (String × β)) {k k' : String} (v : β)
    (h : k' ≠ k) : alookup (aset l k v) k' = alookup l k' := by
  have hkk : ¬ k = k' := fun hh => h hh.symm
  induction l with
  | nil => simp [aset, alookup, hkk]
  | cons p rest ih =>
      obtain ⟨k₀, v₀⟩ := p
      by_cases h0 : k₀ = k
      · simp [aset, h0, alookup, hkk, h]
      · by_cases h1 : k₀ = k'
        · simp [aset, h0, alookup, h1, h]
        · simp [aset, h0, alookup, h1, ih]

theorem alookup_aremove_self {β : Type} (l : List (String × β)) (k : String) :
    alookup (aremove l k) k = none := by
  induction l with
  | nil => simp [aremove, alookup]
  | cons p rest ih =>
      obtain ⟨k₀, v₀⟩ := p
      by_cases h : k₀ = k
      · simpa [aremove, h] using ih
      · simpa [aremove, alookup, h] using ih

theorem alookup_aremove_ne {β : Type} (l : List (String × β)) {k k' : String}
    (h : k' ≠ k) : alookup (aremove l k) k' = alookup l k' := by
  induction l with
  | nil => simp [aremove, alookup]
  | cons p rest ih =>
      obtain ⟨k₀, v₀⟩ := p
      by_cases h0 : k₀ = k
      · have hkk : ¬ k = k' := fun hh => h hh.symm
        simpa [aremove, h0, alookup, hkk] using ih
      · by_cases h1 : k₀ = k'
        · simp [aremove, h0, alookup, h1, h]
        · simp [aremove, h0, alookup, h1, ih]

theorem mem_lremAll {l : List String} {x y : String} :
    x ∈ lremAll l y ↔ x ∈ l ∧ x ≠ y := by
  simp [lremAll, List.mem_filter]

theorem lremAll_of_not_mem {l : List String} {y : String} (h : y ∉ l) :
    lremAll l y = l := by
  rw [lremAll, List.filter_eq_self]
  intro a ha
  simp only [decide_eq_true_eq]
  exact fun hh => h (hh ▸ ha)

theorem mem_insertSorted {x a : String × ℚ} {l : List (String × ℚ)} :
    a ∈ insertSorted x l ↔ a = x ∨ a ∈ l := by
  induction l with
  | nil => simp [insertSorted]
  | cons y ys ih =>
      by_cases h : scoreLe x y
      · simp [insertSorted, h]
      · simp only [insertSorted, if_neg h, List.mem_cons, ih]
        tauto

theorem mem_sortByScore {a : String × ℚ} {l : List (String × ℚ)} :
    a ∈ sortByScore l ↔ a ∈ l := by
  induction l with
  | nil => simp [sortByScore]
  | cons x xs ih => simp [sortByScore, mem_insertSorted, ih]

theorem mem_zrangebyscore {z : List (String × ℚ)} {lo hi : ℚ} {id : String} :
    id ∈ zrangebyscore z lo hi ↔ ∃ sc, (id, sc) ∈ z ∧ lo ≤ sc ∧ sc ≤ hi := by
  constructor
  · intro h
    obtain ⟨⟨id', sc⟩, hmem, heq⟩ := List.mem_map.mp h
    cases heq
    have := mem_sortByScore.mp hmem
    have h2 := List.mem_filter.mp this
    exact ⟨sc, h2.1, by simpa using h2.2⟩
  · rintro ⟨sc, hmem, h1, h2⟩
    exact List.mem_map.mpr ⟨(id, sc),
      mem_sortByScore.mpr (List.mem_filter.mpr ⟨hmem, by simpa using ⟨h1, h2⟩⟩), rfl⟩

theorem alookup_eq_some_of_mem {β : Type} {l : List (String × β)} {k : String} {v : β}
    (hnd : (l.map Prod.fst).Nodup) (hmem : (k, v) ∈ l) : alookup l k = some v := by
  induction l with
  | nil => cases hmem
  | cons p rest ih =>
      obtain ⟨k₀, v₀⟩ := p
      rcases List.mem_cons.mp hmem with h | h
      · cases h
        simp [alookup]
      · have hk : k₀ ≠ k := by
          intro hh
          subst hh
          exact (List.nodup_cons.mp hnd).1 (List.mem_map.mpr ⟨(k₀, v), h, rfl⟩)
        simp only [alookup, if_neg hk]
        exact ih (List.nodup_cons.mp hnd).2 h

theorem mem_of_alookup_eq_some {β : Type} {l : List (String × β)} {k : String} {v : β}
    (h : alookup l k = some v) : (k, v) ∈ l := by
  induction l with
  | nil => cases h
  | cons p rest ih =>
      obtain ⟨k₀, v₀⟩ := p
      by_cases h0 : k₀ = k
      · subst h0
        rw [alookup, if_pos rfl] at h
        cases h
        exact List.mem_cons_self _ _
      · rw [alookup, if_neg h0] at h
        exact List.mem_cons_of_mem _ (ih h)

theorem alookup_foldl_aset_zero_of_mem {due : List String} {z : List (String × ℚ)}
    {id : String} :
    (id ∈ due → alookup (due.foldl (fun z' i => aset z' i (0 : ℚ)) z) id = some 0) ∧
      (alookup z id = some 0 → alookup (due.foldl (fun z' i => aset z' i (0 : ℚ)) z) id = some 0) := by
  induction due generalizing z with
  | nil => exact ⟨fun h => absurd h (List.not_mem_nil id), fun h => h⟩
  | cons d rest ih =>
      constructor
      · intro hmem
        rcases List.mem_cons.mp hmem with h | h
        · subst h
          exact (ih (z := aset z id 0)).2 (alookup_aset_self z id 0)
        · exact (ih (z := aset z d 0)).1 h
      · intro h0
        by_cases hd : id = d
        · subst hd
          exact (ih (z := aset z id 0)).2 (alookup_aset_self z id 0)
        · exact (ih (z := aset z d 0)).2 (by rw [alookup_aset_ne _ _ hd]; exact h0)

theorem alookup_foldl_aset_zero_of_not_mem {due : List String} {z : List (String × ℚ)}
    {id : String} (h : id ∉ due) :
    alookup (due.foldl (fun z' i => aset z' i (0 : ℚ)) z) id = alookup z id := by
  induction due generalizing z with
  | nil => rfl
  | cons d rest ih =>
      have hd : id ≠ d := fun hh => h (hh ▸ List.mem_cons_self d rest)
      have hr : id ∉ rest := fun hh => h (List.mem_cons_of_mem d hh)
      simp only [List.foldl_cons]
      rw [ih hr, alookup_aset_ne _ _ hd]

/-- The ACTIVE job used to exhibit the timeout-disabled defect: timeout
and heartbeat both 0, started and touched at epoch 0. -/
def c2Job : Job :=
  { id := jobIdOf "default" "k", status := .active, timeout := 0, heartbeat := 0,
    started := 0, touched := 0 }

/-- A store in which `c2Job` is the only job, present with status ACTIVE
in `active` and `incomplete`. -/
def c2Store : Store :=
  { records := [(c2Job.id, serialize "default" c2Job)],
    incomplete := [(c2Job.id, 0)],
    active := [c2Job.id] }

/-- C2: the code contradicts the claim (and its own docstring, which says
timeout 0 means disabled). `Job.stuck` tests `seconds(now - started) >
timeout` without guarding `timeout = 0`, so an ACTIVE job with timeout = 0
and heartbeat = 0 counts as stuck as soon as more than zero seconds have
elapsed — here 11 seconds after `started` — and a sweep run that acquires
the lock finishes it ABORTED instead of leaving it alone. -/
theorem c2_stuck_timeout_zero_code_bug :
    c2Job.stuck 11000 = true ∧
      (sweep "default" 60 11000 c2Store).toOption.map
          (fun r => (r.1, decide ((c2Job.id, Status.aborted) ∈ r.2.published))) =
        some ([c2Job.id], true) := by
  constructor
  · decide
  · decide

/-- The job used for the C3 counterexample: its id is only in `active`. -/
def c3Job : Job := { id := jobIdOf "q" "k" }

/-- A store for C3 where the job is active (already dequeued), so
`LREM(queued, 0, id)` removes zero entries. -/
def c3Store : Store :=
  { incomplete := [(c3Job.id, 0)], active := [c3Job.id] }

/-- C3 counterexample: aborting a job that is no longer in `queued` does
not leave `active` unchanged — `Queue.abort`'s else-branch removes the id
from `active` itself (`LREM(active, 0, id)`), contrary to the claim that
removal from `active` is left to the worker's finish or to sweep. -/
theorem c3_abort_counterexample :
    c3Job.id ∉ c3Store.queued ∧ c3Job.id ∈ c3Store.active ∧
      (abort "q" c3Job "stop" 5 0 c3Store).1.active ≠ c3Store.active ∧
      c3Job.id ∉ (abort "q" c3Job "stop" 5 0 c3Store).1.active := by
  refine ⟨by decide, by decide, by decide, by decide⟩

/-- C3 amended: when the job's id is no longer in `queued`, abort issues
exactly the transaction LREM(queued, 0, id), ZREM(incomplete, id),
EXPIRE(job_id, ttl+1), SETEX(abort_id, ttl, error) followed by
LREM(active, 0, id): `queued`, the records and the published messages are
unchanged, the id is dropped from `incomplete`, the abort marker is set,
and — unlike the claim — every occurrence of the id is removed from
`active` by abort itself. -/
theorem c3_abort_not_queued (q error : String) (ttl currentMs : Int) (j : Job) (s : Store)
    (hid : j.id ∉ s.queued) :
    (abort q j error ttl currentMs s).2 =
        [.lrem (namespaceKey q "queued") 0 j.id, .zrem (namespaceKey q "incomplete") j.id,
          .expire j.id (ttl + 1), .setexMarker (abortIdOf j.id) ttl error,
          .lrem (namespaceKey q "active") 0 j.id] ∧
      (abort q j error ttl currentMs s).1.queued = s.queued ∧
      (abort q j error ttl currentMs s).1.incomplete = aremove s.incomplete j.id ∧
      (abort q j error ttl currentMs s).1.active = lremAll s.active j.id ∧
      (abort q j error ttl currentMs s).1.records = s.records ∧
      (abort q j error ttl currentMs s).1.published = s.published ∧
      (abort q j error ttl currentMs s).1.abortMarkers =
        aset s.abortMarkers (abortIdOf j.id) error := by
  have hcnt : s.queued.count j.id = 0 := List.count_eq_zero.mpr hid
  simp [abort, hcnt, lremAll_of_not_mem hid]

/-- C3 amended witness at a concrete store with the id only in `active`. -/
theorem c3_abort_not_queued_witness :
    c3Job.id ∉ c3Store.queued ∧
      (abort "q" c3Job "stop" 5 0 c3Store).1.active = lremAll c3Store.active c3Job.id ∧
      (abort "q" c3Job "stop" 5 0 c3Store).1.queued = c3Store.queued :=
  ⟨by decide, (c3_abort_not_queued "q" "stop" 5 0 c3Job c3Store (by decide)).2.2.2.1,
    (c3_abort_not_queued "q" "stop" 5 0 c3Job c3Store (by decide)).2.1⟩

/-- C10: a missing or empty record deserializes to absent, so
`Queue.job` returns absent rather than raising; the queue-name assertion
fires only on non-empty input, exactly when the embedded name differs. -/
theorem c10_missing_record_absent (q key : String) (s : Store)
    (h : alookup s.records (jobIdOf q key) = none ∨
      alookup s.records (jobIdOf q key) = some .empty) :
    getJobById q (jobIdOf q key) s = .ok none ∧
      deserialize q none = .ok none ∧
      deserialize q (some .empty) = .ok none ∧
      (∀ qn j, qn = q → deserialize q (some (.data qn j)) = .ok (some j)) ∧
      (∀ qn j, qn ≠ q → deserialize q (some (.data qn j)) =
        .error ("Job fetched by wrong queue: " ++ q)) := by
  refine ⟨?_, rfl, rfl, ?_, ?_⟩
  · rcases h with h | h <;> simp [getJobById, h, deserialize]
  · intro qn j hq
    simp [deserialize, hq]
  · intro qn j hq
    simp [deserialize, hq]

/-- C10 witness: an empty store and an empty-bytes record, plus the two
deserialize branches at concrete values. -/
theorem c10_missing_record_absent_witness :
    getJobById "q" (jobIdOf "q" "k") {} = .ok none ∧
      getJobById "q" (jobIdOf "q" "k2")
        { records := [(jobIdOf "q" "k2", JobBytes.empty)] } = .ok none ∧
      deserialize "q" (some (.data "q" c3Job)) = .ok (some c3Job) ∧
      deserialize "q" (some (.data "other" c3Job)) =
        .error ("Job fetched by wrong queue: " ++ "q") :=
  ⟨(c10_missing_record_absent "q" "k" {} (.inl (by decide))).1,
    (c10_missing_record_absent "q" "k2"
      { records := [(jobIdOf "q" "k2", JobBytes.empty)] } (.inr (by decide))).1,
    (c10_missing_record_absent "q" "k" {} (.inl (by decide))).2.2.2.1 "q" c3Job rfl,
    (c10_missing_record_absent "q" "k" {} (.inl (by decide))).2.2.2.2 "other" c3Job
      (by decide)⟩

/-- C4: with the before-enqueue callbacks succeeding, the enqueue script
returns nil — surfaced by the caller as `.ok none`, never as an error —
and changes nothing exactly when the id already has a score in
`incomplete` or an abort marker exists; otherwise it stores the record,
scores the id with `scheduled` in `incomplete`, pushes onto `queued`
exactly when scheduled = 0, and the caller returns the prepared job. -/
theorem c4_enqueue_duplicate_or_aborted (σ ε : Type) (q : String)
    (cbs : List (Job → σ → Except ε σ)) (j : Job) (currentMs : Int) (st st' : σ) (s : Store)
    (hcb : runBeforeEnqueues cbs (prepareJob j currentMs) st = .ok st') :
    (((enqueue q cbs j currentMs st s).1 = .ok none ∧
        (enqueue q cbs j currentMs st s).2.1 = s) ↔
      ((alookup s.incomplete j.id).isSome ∨
        (alookup s.abortMarkers (abortIdOf j.id)).isSome)) ∧
      (∃ out, (enqueue q cbs j currentMs st s).1 = .ok out) ∧
      ((alookup s.incomplete j.id = none ∧ alookup s.abortMarkers (abortIdOf j.id) = none) →
        ((enqueue q cbs j currentMs st s).1 = .ok (some (prepareJob j currentMs)) ∧
          alookup (enqueue q cbs j currentMs st s).2.1.records j.id =
            some (serialize q (prepareJob j currentMs)) ∧
          alookup (enqueue q cbs j currentMs st s).2.1.incomplete j.id =
            some ((j.scheduled : ℚ)) ∧
          (j.scheduled = 0 →
            (enqueue q cbs j currentMs st s).2.1.queued = s.queued ++ [j.id]) ∧
          (j.scheduled ≠ 0 →
            (enqueue q cbs j currentMs st s).2.1.queued = s.queued))) := by
  have hid : (prepareJob j currentMs).id = j.id := rfl
  have hsch : (prepareJob j currentMs).scheduled = j.scheduled := rfl
  simp only [enqueue, hcb]
  by_cases h1 : (alookup s.incomplete j.id).isNone
  · by_cases h2 : (alookup s.abortMarkers (abortIdOf j.id)).isNone
    · have hn1 : alookup s.incomplete j.id = none := Option.isNone_iff_eq_none.mp h1
      have hn2 : alookup s.abortMarkers (abortIdOf j.id) = none :=
        Option.isNone_iff_eq_none.mp h2
      refine ⟨?_, ⟨some (prepareJob j currentMs), by simp [enqueueScript, hid, h1, h2]⟩, ?_⟩
      · constructor
        · intro hh
          exfalso
          have := hh.1
          simp [enqueueScript, hid, h1, h2] at this
        · intro hh
          exfalso
          rcases hh with hh | hh
          · simp [hn1] at hh
          · simp [hn2] at hh
      · intro _
        refine ⟨by simp [enqueueScript, hid, h1, h2], ?_, ?_, ?_, ?_⟩
        · simp [enqueueScript, hid, h1, h2, alookup_aset_self]
        · simp [enqueueScript, hid, hsch, h1, h2, alookup_aset_self]
        · intro hz
          simp [enqueueScript, hid, hsch, h1, h2, hz]
        · intro hz
          simp [enqueueScript, hid, hsch, h1, h2, hz]
    · have hs2 : (alookup s.abortMarkers (abortIdOf j.id)).isSome := by
        cases hx : alookup s.abortMarkers (abortIdOf j.id) <;> simp [hx] at h2 ⊢
      refine ⟨?_, ⟨none, by simp [enqueueScript, hid, h2]⟩, ?_⟩
      · simp [enqueueScript, hid, h2, hs2]
      · intro hh
        rcases hh with ⟨-, hb⟩
        simp [hb] at hs2
  · have hs1 : (alookup s.incomplete j.id).isSome := by
      cases hx : alookup s.incomplete j.id <;> simp [hx] at h1 ⊢
    refine ⟨?_, ⟨none, by simp [enqueueScript, hid, h1]⟩, ?_⟩
    · simp [enqueueScript, hid, h1, hs1]
    · intro hh
      rcases hh with ⟨ha, -⟩
      simp [ha] at hs1

/-- The fresh job enqueued in the C4 witness. -/
def c4Job : Job := { id := jobIdOf "q" "w" }

/-- C4 witness: enqueueing into an empty store with no callbacks succeeds
and pushes onto `queued`; the duplicate branch of the iff is exercised on
the store that first enqueue produced. -/
theorem c4_enqueue_duplicate_or_aborted_witness :
    runBeforeEnqueues ([] : List (Job → Unit → Except Unit Unit)) (prepareJob c4Job 3) () =
        .ok () ∧
      (enqueue "q" ([] : List (Job → Unit → Except Unit Unit)) c4Job 3 () {}).1 =
        .ok (some (prepareJob c4Job 3)) ∧
      (enqueue "q" ([] : List (Job → Unit → Except Unit Unit)) c4Job 3 () {}).2.1.queued =
        ({} : Store).queued ++ [c4Job.id] :=
  ⟨rfl,
    ((c4_enqueue_duplicate_or_aborted Unit Unit "q" [] c4Job 3 () () {} rfl).2.2
      ⟨rfl, rfl⟩).1,
    (((c4_enqueue_duplicate_or_aborted Unit Unit "q" [] c4Job 3 () () {} rfl).2.2
      ⟨rfl, rfl⟩).2.2.2.1 rfl)⟩

/-- C5: finish sets status/result/error, stamps completed, sets progress
to 1 exactly on COMPLETE; the transaction removes exactly one occurrence
of the id from `active` and drops the id from `incomplete`; the record is
kept with SETEX for ttl > 0, with SET for ttl = 0, deleted for ttl < 0;
and the new status is published on the job's id channel after the
transaction (last command of the trace). -/
theorem c5_finish (q : String) (j : Job) (status : Status) (result : Option Int)
    (error : Option String) (currentMs : Int) (s : Store) (hmem : j.id ∈ s.active) :
    ((finish q j status result error currentMs s).1.status = status ∧
      (finish q j status result error currentMs s).1.result = result ∧
      (finish q j status result error currentMs s).1.error = error ∧
      (finish q j status result error currentMs s).1.completed = currentMs ∧
      (finish q j status result error currentMs s).1.progress =
        (if status = .complete then 1 else j.progress)) ∧
      ((finish q j status result error currentMs s).2.1.active = s.active.erase j.id ∧
        (finish q j status result error currentMs s).2.1.active.count j.id + 1 =
          s.active.count j.id ∧
        (∀ x, x ≠ j.id →
          (finish q j status result error currentMs s).2.1.active.count x =
            s.active.count x) ∧
        (finish q j status result error currentMs s).2.1.active.length + 1 =
          s.active.length ∧
        alookup (finish q j status result error currentMs s).2.1.incomplete j.id = none) ∧
      ((0 < j.ttl →
          alookup (finish q j status result error currentMs s).2.1.records j.id =
            some (serialize q (finish q j status result error currentMs s).1) ∧
          (finish q j status result error currentMs s).2.2 =
            [.lrem (namespaceKey q "active") 1 j.id, .zrem (namespaceKey q "incomplete") j.id,
              .setex j.id j.ttl (serialize q (finish q j status result error currentMs s).1),
              .publish j.id status]) ∧
        (j.ttl = 0 →
          alookup (finish q j status result error currentMs s).2.1.records j.id =
            some (serialize q (finish q j status result error currentMs s).1) ∧
          (finish q j status result error currentMs s).2.2 =
            [.lrem (namespaceKey q "active") 1 j.id, .zrem (namespaceKey q "incomplete") j.id,
              .setKey j.id (serialize q (finish q j status result error currentMs s).1),
              .publish j.id status]) ∧
        (j.ttl < 0 →
          alookup (finish q j status result error currentMs s).2.1.records j.id = none ∧
          (finish q j status result error currentMs s).2.2 =
            [.lrem (namespaceKey q "active") 1 j.id, .zrem (namespaceKey q "incomplete") j.id,
              .del j.id, .publish j.id status])) ∧
      ((finish q j status result error currentMs s).2.1.published =
        s.published ++ [(j.id, status)]) := by
  have hcnt : 0 < s.active.count j.id := List.count_pos_iff.mpr hmem
  have hlen : 0 < s.active.length := List.length_pos_of_mem hmem
  refine ⟨⟨rfl, rfl, rfl, rfl, rfl⟩, ⟨rfl, ?_, ?_, ?_, ?_⟩, ⟨?_, ?_, ?_⟩, rfl⟩
  · have := List.count_erase_self j.id s.active
    simp only [finish, lremOne]
    omega
  · intro x hx
    simp only [finish, lremOne]
    exact List.count_erase_of_ne hx s.active
  · have := List.length_erase_of_mem hmem
    simp only [finish, lremOne]
    omega
  · simp only [finish]
    exact alookup_aremove_self _ _
  · intro h
    constructor
    · simp only [finish, h, if_pos]
      exact alookup_aset_self _ _ _
    · simp [finish, retainOp, h]
  · intro h
    have hns : ¬ 0 < j.ttl := by omega
    constructor
    · simp only [finish, h]
      simp only [lt_irrefl, if_false, if_pos rfl]
      exact alookup_aset_self _ _ _
    · simp [finish, retainOp, h]
  · intro h
    have h1 : ¬ 0 < j.ttl := by omega
    have h2 : j.ttl ≠ 0 := by omega
    constructor
    · simp only [finish, if_neg h1, if_neg h2]
      exact alookup_aremove_self _ _
    · simp [finish, retainOp, h1, h2]

/-- The job finished in the C5 witness. -/
def c5Job : Job := { id := jobIdOf "q" "k5" }

/-- The store the C5 witness finishes in: the job is active and scored. -/
def c5Store : Store := { incomplete := [(c5Job.id, 0)], active := [c5Job.id] }

/-- C5 witness: finishing the concrete active job with COMPLETE publishes
complete after the transaction and removes the id from `active`. -/
theorem c5_finish_witness :
    c5Job.id ∈ c5Store.active ∧
      (finish "q" c5Job .complete (some 3) none 7 c5Store).2.1.published =
        c5Store.published ++ [(c5Job.id, .complete)] ∧
      (finish "q" c5Job .complete (some 3) none 7 c5Store).2.1.active =
        c5Store.active.erase c5Job.id :=
  ⟨by decide,
    (c5_finish "q" c5Job .complete (some 3) none 7 c5Store (by decide)).2.2.2,
    (c5_finish "q" c5Job .complete (some 3) none 7 c5Store (by decide)).2.1.1⟩

/-- C9: before-enqueue callbacks run sequentially in registration order
(running an appended registry equals running the first part and, on
success, feeding its state to the second), and when some callback raises,
enqueue propagates that error with the store unchanged and an empty
command trace — the shared store is never contacted. -/
theorem c9_before_enqueue (σ ε : Type) :
    (∀ (cbs1 cbs2 : List (Job → σ → Except ε σ)) (j : Job) (st : σ),
      runBeforeEnqueues (cbs1 ++ cbs2) j st =
        (runBeforeEnqueues cbs1 j st).bind (fun st' => runBeforeEnqueues cbs2 j st')) ∧
      (∀ (q : String) (cbs : List (Job → σ → Except ε σ)) (j : Job) (currentMs : Int)
        (st : σ) (s : Store) (e : ε),
        runBeforeEnqueues cbs (prepareJob j currentMs) st = .error e →
          enqueue q cbs j currentMs st s = (.error e, s, [])) := by
  constructor
  · intro cbs1 cbs2 j st
    induction cbs1 generalizing st with
    | nil => rfl
    | cons cb rest ih =>
        simp only [List.cons_append, runBeforeEnqueues]
        cases cb j st with
        | ok st' => exact ih st'
        | error e => rfl
  · intro q cbs j currentMs st s e h
    simp [enqueue, h]

/-- A callback that records its visit by prepending 0 to the state. -/
def cbZero : Job → List Nat → Except String (List Nat) := fun _ l => .ok (0 :: l)

/-- A callback that records its visit by prepending 1 to the state. -/
def cbOne : Job → List Nat → Except String (List Nat) := fun _ l => .ok (1 :: l)

/-- A callback that raises. -/
def cbBoom : Job → List Nat → Except String (List Nat) := fun _ _ => .error "boom"

/-- C9 witness: the order law at two concrete callbacks, and a raising
callback making enqueue propagate the error with the empty store
untouched and no commands issued. -/
theorem c9_before_enqueue_witness :
    runBeforeEnqueues ([cbZero] ++ [cbOne]) c4Job [] =
        (runBeforeEnqueues [cbZero] c4Job []).bind
          (fun st' => runBeforeEnqueues [cbOne] c4Job st') ∧
      enqueue "q" [cbBoom] c4Job 0 [] {} = (.error "boom", ({} : Store), []) :=
  ⟨(c9_before_enqueue (List Nat) String).1 [cbZero] [cbOne] c4Job [],
    (c9_before_enqueue (List Nat) String).2 "q" [cbBoom] c4Job 0 [] {} "boom" rfl⟩

/-- C7: when the schedule lock key exists the call changes nothing and
returns nothing; when it is absent the script acquires the lock with the
given TTL, selects exactly the `incomplete` members with score in
[1, now-seconds] (score 0 excluded), re-scores each selected id to 0,
appends the selected ids in order to `queued`, returns them, and touches
nothing else. -/
theorem c7_schedule (lockTtl : Int) (nowSec : ℚ) (s : Store)
    (hnd : (s.incomplete.map Prod.fst).Nodup) :
    (s.scheduleLock.isSome → schedule lockTtl nowSec s = (none, s)) ∧
      (s.scheduleLock = none →
        ((schedule lockTtl nowSec s).1 = some (zrangebyscore s.incomplete 1 nowSec) ∧
          (∀ id, id ∈ zrangebyscore s.incomplete 1 nowSec ↔
            ∃ sc, alookup s.incomplete id = some sc ∧ 1 ≤ sc ∧ sc ≤ nowSec) ∧
          (schedule lockTtl nowSec s).2.queued =
            s.queued ++ zrangebyscore s.incomplete 1 nowSec ∧
          (schedule lockTtl nowSec s).2.scheduleLock = some lockTtl ∧
          (∀ id ∈ zrangebyscore s.incomplete 1 nowSec,
            alookup (schedule lockTtl nowSec s).2.incomplete id = some 0) ∧
          (∀ id, id ∉ zrangebyscore s.incomplete 1 nowSec →
            alookup (schedule lockTtl nowSec s).2.incomplete id = alookup s.incomplete id) ∧
          (schedule lockTtl nowSec s).2.records = s.records ∧
          (schedule lockTtl nowSec s).2.active = s.active ∧
          (schedule lockTtl nowSec s).2.abortMarkers = s.abortMarkers ∧
          (schedule lockTtl nowSec s).2.published = s.published)) := by
  constructor
  · intro h
    simp [schedule, h]
  · intro h
    have hns : ¬ s.scheduleLock.isSome := by simp [h]
    refine ⟨by simp [schedule, hns], ?_, by simp [schedule, hns], by simp [schedule, hns],
      ?_, ?_, by simp [schedule, hns], by simp [schedule, hns], by simp [schedule, hns],
      by simp [schedule, hns]⟩
    · intro id
      constructor
      · intro hm
        obtain ⟨sc, hmem, h1, h2⟩ := mem_zrangebyscore.mp hm
        exact ⟨sc, alookup_eq_some_of_mem hnd hmem, h1, h2⟩
      · rintro ⟨sc, hl, h1, h2⟩
        exact mem_zrangebyscore.mpr ⟨sc, mem_of_alookup_eq_some hl, h1, h2⟩
    · intro id hm
      simp only [schedule, hns, Bool.false_eq_true, if_false]
      exact alookup_foldl_aset_zero_of_mem.1 hm
    · intro id hm
      simp only [schedule, hns, Bool.false_eq_true, if_false]
      exact alookup_foldl_aset_zero_of_not_mem hm

/-- The store used by the C7 witness: one deferred id with score 5 and no
lock. -/
def c7Store : Store := { incomplete := [(jobIdOf "q" "k7", 5)] }

/-- C7 witness: at time 10 the deferred id is due, gets promoted to
`queued` with its score reset to 0, and the lock is taken. -/
theorem c7_schedule_witness :
    c7Store.scheduleLock = none ∧
      ((c7Store.incomplete.map Prod.fst).Nodup) ∧
      (schedule 1 10 c7Store).2.queued = c7Store.queued ++ zrangebyscore c7Store.incomplete 1 10 ∧
      (schedule 1 10 c7Store).2.scheduleLock = some 1 ∧
      zrangebyscore c7Store.incomplete 1 10 = [jobIdOf "q" "k7"] ∧
      alookup (schedule 1 10 c7Store).2.incomplete (jobIdOf "q" "k7") = some 0 :=
  ⟨rfl, by decide,
    ((c7_schedule 1 10 c7Store (by decide)).2 rfl).2.2.1,
    ((c7_schedule 1 10 c7Store (by decide)).2 rfl).2.2.2.1,
    by decide,
    ((c7_schedule 1 10 c7Store (by decide)).2 rfl).2.2.2.2.1 (jobIdOf "q" "k7") (by decide)⟩

/-- C8 counterexample: an input item whose record fetch returned nothing
contributes no entry at all (`if job is None: continue`), so the result
list does not contain one entry per input item — here one input item and
an empty result list. -/
theorem c8_map_counterexample :
    aggregateResults true [none] = .ok [] ∧
      ([none] : List (Option Job)).length = 1 ∧ ([] : List MapResult).length = 0 :=
  ⟨rfl, rfl, rfl⟩

/-- C8 amended: the aggregation step of map yields one entry per input
item whose fetch returned a job (missing records are skipped), in input
order: with return_exceptions every unsuccessful-terminal job is
substituted by its job-error and every other fetched entry is the job's
result; without return_exceptions a job-error is raised at the first
fetched job (in input order) whose status is FAILED or ABORTED, and when
no fetched job is unsuccessful the result is just the fetched jobs'
results in order. -/
theorem c8_map_aggregate (re : Bool) (jobs : List (Option Job)) :
    (re = true →
      aggregateResults re jobs =
        .ok ((jobs.filterMap (fun x => x)).map
          (fun j => if unsuccessful j.status then .jobError j else .value j.result))) ∧
      ((∀ j ∈ jobs.filterMap (fun x => x), ¬ unsuccessful j.status = true) →
        aggregateResults re jobs =
          .ok ((jobs.filterMap (fun x => x)).map (fun j => .value j.result))) ∧
      (∀ (pre post : List Job) (j : Job), re = false →
        jobs.filterMap (fun x => x) = pre ++ j :: post →
        (∀ i ∈ pre, ¬ unsuccessful i.status = true) → unsuccessful j.status = true →
        aggregateResults re jobs = .error j) := by
  refine ⟨?_, ?_, ?_⟩
  · intro hre
    subst hre
    induction jobs with
    | nil => rfl
    | cons x rest ih =>
        cases x with
        | none => simpa [aggregateResults] using ih
        | some j =>
            by_cases hb : unsuccessful j.status
            · simp [aggregateResults, hb, ih, Except.map]
            · simp [aggregateResults, hb, ih, Except.map]
  · intro hok
    induction jobs with
    | nil => rfl
    | cons x rest ih =>
        cases x with
        | none =>
            simp only [List.filterMap_cons] at hok
            simpa [aggregateResults] using ih hok
        | some j =>
            simp only [List.filterMap_cons] at hok
            have hj : ¬ unsuccessful j.status = true :=
              hok j (List.mem_cons_self _ _)
            have hrest : ∀ i ∈ rest.filterMap (fun x => x), ¬ unsuccessful i.status = true :=
              fun i hi => hok i (List.mem_cons_of_mem _ hi)
            simp [aggregateResults, hj, ih hrest, Except.map]
  · intro pre post j hre hsplit hpre hj
    subst hre
    induction jobs generalizing pre with
    | nil =>
        cases pre <;> simp [List.filterMap_nil] at hsplit
    | cons x rest ih =>
        cases x with
        | none =>
            simp only [List.filterMap_cons] at hsplit
            simpa [aggregateResults] using ih pre hsplit hpre
        | some i =>
            simp only [List.filterMap_cons] at hsplit
            cases pre with
            | nil =>
                simp only [List.nil_append, List.cons.injEq] at hsplit
                obtain ⟨hij, -⟩ := hsplit
                subst hij
                simp [aggregateResults, hj]
            | cons p pre' =>
                simp only [List.cons_append, List.cons.injEq] at hsplit
                obtain ⟨hip, hrest⟩ := hsplit
                subst hip
                have hip' : ¬ unsuccessful i.status = true :=
                  hpre i (List.mem_cons_self _ _)
                have hpre' : ∀ x ∈ pre', ¬ unsuccessful x.status = true :=
                  fun x hx => hpre x (List.mem_cons_of_mem _ hx)
                simp [aggregateResults, hip', ih pre' hrest hpre', Except.map]

/-- Jobs used by the C8 witness: one complete with result 3, one failed. -/
def c8Good : Job := { id := jobIdOf "q" "a", status := .complete, result := some 3 }

/-- The failed job of the C8 witness. -/
def c8Bad : Job := { id := jobIdOf "q" "b", status := .failed }

/-- C8 witness: with return_exceptions the failed job is substituted in
place; without it the error is raised at the first failed job even when a
missing record precedes it. -/
theorem c8_map_aggregate_witness :
    aggregateResults true [some c8Good, none, some c8Bad] =
        .ok [.value (some 3), .jobError c8Bad] ∧
      aggregateResults false [some c8Good, none, some c8Bad] = .error c8Bad :=
  ⟨by
    have h := (c8_map_aggregate true [some c8Good, none, some c8Bad]).1 rfl
    simpa using h,
   by
    have h := (c8_map_aggregate false [some c8Good, none, some c8Bad]).2.2
      [c8Good] [] c8Bad rfl (by simp [List.filterMap_cons]) ?_ (by decide)
    · exact h
    · intro i hi
      simp only [List.mem_singleton] at hi
      subst hi
      decide⟩

/-- Invariant 2 of the spec: every id in `queued` also has score 0 in
`incomplete`. -/
def QueuedZeroInv (s : Store) : Prop :=
  ∀ id ∈ s.queued, alookup s.incomplete id = some 0

instance (s : Store) : Decidable (QueuedZeroInv s) := by
  unfold QueuedZeroInv
  infer_instance

theorem c1EnqueuePreserves (σ ε : Type) (q : String) (cbs : List (Job → σ → Except ε σ))
    (j : Job) (currentMs : Int) (st : σ) (s : Store) (hInv : QueuedZeroInv s) :
    QueuedZeroInv (enqueue q cbs j currentMs st s).2.1 := by
  cases hcb : runBeforeEnqueues cbs (prepareJob j currentMs) st with
  | error e => simpa [enqueue, hcb] using hInv
  | ok st' =>
      have hpid : (prepareJob j currentMs).id = j.id := rfl
      have hpsch : (prepareJob j currentMs).scheduled = j.scheduled := rfl
      cases hx : alookup s.incomplete j.id with
      | some v => simpa [enqueue, hcb, enqueueScript, hpid, hx] using hInv
      | none =>
          cases hm : alookup s.abortMarkers (abortIdOf j.id) with
          | some v => simpa [enqueue, hcb, enqueueScript, hpid, hx, hm] using hInv
          | none =>
              have hq : (enqueue q cbs j currentMs st s).2.1.queued =
                  (if j.scheduled = 0 then s.queued ++ [j.id] else s.queued) := by
                simp [enqueue, hcb, enqueueScript, hpid, hpsch, hx, hm]
              have hself : alookup (enqueue q cbs j currentMs st s).2.1.incomplete j.id =
                  some ((j.scheduled : ℚ)) := by
                simp [enqueue, hcb, enqueueScript, hpid, hpsch, hx, hm, alookup_aset_self]
              have hne : ∀ id₂, id₂ ≠ j.id →
                  alookup (enqueue q cbs j currentMs st s).2.1.incomplete id₂ =
                    alookup s.incomplete id₂ := by
                intro id₂ h2
                simp [enqueue, hcb, enqueueScript, hpid, hpsch, hx, hm,
                  alookup_aset_ne _ _ h2]
              intro id₂ hid₂
              rw [hq] at hid₂
              by_cases heq : id₂ = j.id
              · subst heq
                rw [hself]
                by_cases hz : j.scheduled = 0
                · rw [hz]
                  simp
                · exfalso
                  rw [if_neg hz] at hid₂
                  have h0 := hInv _ hid₂
                  rw [h0] at hx
                  cases hx
              · rw [hne id₂ heq]
                apply hInv
                by_cases hz : j.scheduled = 0
                · rw [if_pos hz] at hid₂
                  rcases List.mem_append.mp hid₂ with h | h
                  · exact h
                  · exact absurd (List.mem_singleton.mp h) heq
                · rwa [if_neg hz] at hid₂

theorem c1SchedulePreserves (lockTtl : Int) (nowSec : ℚ) (s : Store)
    (hInv : QueuedZeroInv s) : QueuedZeroInv (schedule lockTtl nowSec s).2 := by
  by_cases hl : s.scheduleLock.isSome
  · simpa [schedule, hl] using hInv
  · intro id₂ hid₂
    simp only [schedule, hl, Bool.false_eq_true, if_false] at hid₂ ⊢
    by_cases hdue : id₂ ∈ zrangebyscore s.incomplete 1 nowSec
    · exact alookup_foldl_aset_zero_of_mem.1 hdue
    · rw [alookup_foldl_aset_zero_of_not_mem hdue]
      apply hInv
      rcases List.mem_append.mp hid₂ with h | h
      · exact h
      · exact absurd h hdue

theorem c1DequeuePreserves (s : Store) (hInv : QueuedZeroInv s) :
    QueuedZeroInv (dequeue s).2 := by
  cases hq : s.queued.getLast? with
  | none => simpa [dequeue, hq] using hInv
  | some id =>
      intro id₂ hid₂
      simp only [dequeue, hq] at hid₂ ⊢
      exact hInv id₂ (List.dropLast_subset _ hid₂)

theorem c1FinishPreserves (q : String) (j : Job) (status : Status) (result : Option Int)
    (error : Option String) (currentMs : Int) (s : Store) (hInv : QueuedZeroInv s)
    (hnq : j.id ∉ s.queued) :
    QueuedZeroInv (finish q j status result error currentMs s).2.1 := by
  intro id₂ hid₂
  simp only [finish] at hid₂ ⊢
  have hne : id₂ ≠ j.id := fun hh => hnq (hh ▸ hid₂)
  rw [alookup_aremove_ne _ hne]
  exact hInv id₂ hid₂

theorem c1AbortPreserves (q error : String) (j : Job) (ttl currentMs : Int) (s : Store)
    (hInv : QueuedZeroInv s) : QueuedZeroInv (abort q j error ttl currentMs s).1 := by
  have hq : (abort q j error ttl currentMs s).1.queued = lremAll s.queued j.id := by
    simp only [abort]
    split
    · simp [finish]
    · rfl
  have hne : ∀ id₂, id₂ ≠ j.id →
      alookup (abort q j error ttl currentMs s).1.incomplete id₂ =
        alookup s.incomplete id₂ := by
    intro id₂ h2
    simp only [abort]
    split
    · simp [finish, alookup_aremove_ne _ h2]
    · simp [alookup_aremove_ne _ h2]
  intro id₂ hid₂
  rw [hq] at hid₂
  obtain ⟨hmem, hne₂⟩ := mem_lremAll.mp hid₂
  rw [hne id₂ hne₂]
  exact hInv id₂ hmem

theorem c1RetryPreserves (q : String) (j : Job) (error : Option String) (currentMs : Int)
    (timeNow : ℚ) (s : Store) (hInv : QueuedZeroInv s)
    (hcase : (j.nextRetryDelay = 0 ∧ j.scheduled = 0) ∨
      (j.nextRetryDelay ≠ 0 ∧ s.queued.count j.id ≤ 1)) :
    QueuedZeroInv (retry q j error currentMs timeNow s).2.1 := by
  rcases hcase with ⟨hd, hz⟩ | ⟨hd, hcnt⟩
  · have hdn : ¬ j.nextRetryDelay ≠ 0 := by simp [hd]
    have hq : (retry q j error currentMs timeNow s).2.1.queued =
        lremOne s.queued j.id ++ [j.id] := by
      simp [retry, hdn]
    have hself : alookup (retry q j error currentMs timeNow s).2.1.incomplete j.id =
        some ((j.scheduled : ℚ)) := by
      simp [retry, hdn, alookup_aset_self]
    have hne : ∀ id₂, id₂ ≠ j.id →
        alookup (retry q j error currentMs timeNow s).2.1.incomplete id₂ =
          alookup s.incomplete id₂ := by
      intro id₂ h2
      simp [retry, hdn, alookup_aset_ne _ _ h2]
    intro id₂ hid₂
    rw [hq] at hid₂
    by_cases heq : id₂ = j.id
    · subst heq
      rw [hself, hz]
      simp
    · rw [hne id₂ heq]
      rcases List.mem_append.mp hid₂ with h | h
      · exact hInv id₂ (List.erase_subset _ _ h)
      · exact absurd (List.mem_singleton.mp h) heq
  · have hq : (retry q j error currentMs timeNow s).2.1.queued = lremOne s.queued j.id := by
      simp [retry, hd]
    have hne : ∀ id₂, id₂ ≠ j.id →
        alookup (retry q j error currentMs timeNow s).2.1.incomplete id₂ =
          alookup s.incomplete id₂ := by
      intro id₂ h2
      simp [retry, hd, alookup_aset_ne _ _ h2]
    intro id₂ hid₂
    rw [hq] at hid₂
    have heq : id₂ ≠ j.id := by
      intro hh
      have h1 : 0 < ((s.queued.erase j.id).count j.id) :=
        List.count_pos_iff.mpr (by simpa [lremOne, hh] using hid₂)
      have h2 := List.count_erase_self j.id s.queued
      omega
    rw [hne id₂ heq]
    exact hInv id₂ (List.erase_subset _ _ (by simpa [lremOne] using hid₂))

/-- C1 amended: the queued-implies-incomplete-score-0 invariant is
preserved unconditionally by enqueue, schedule, dequeue and abort; by
finish provided the finished job's id is not in `queued` (finish is
reached only for dequeued jobs); and by retry provided the retried job is
an immediate one (scheduled = 0) in the no-delay branch, or its id occurs
at most once in `queued` in the delay branch. It is not preserved by a
no-delay retry of a job with nonzero `scheduled`, which requeues the id
while re-scoring it to `scheduled` ≠ 0. -/
theorem c1_queued_zero_invariant_amended :
    (∀ (σ ε : Type) (q : String) (cbs : List (Job → σ → Except ε σ)) (j : Job)
      (currentMs : Int) (st : σ) (s : Store),
      QueuedZeroInv s → QueuedZeroInv (enqueue q cbs j currentMs st s).2.1) ∧
      (∀ (lockTtl : Int) (nowSec : ℚ) (s : Store),
        QueuedZeroInv s → QueuedZeroInv (schedule lockTtl nowSec s).2) ∧
      (∀ s : Store, QueuedZeroInv s → QueuedZeroInv (dequeue s).2) ∧
      (∀ (q : String) (j : Job) (status : Status) (result : Option Int)
        (error : Option String) (currentMs : Int) (s : Store),
        QueuedZeroInv s → j.id ∉ s.queued →
        QueuedZeroInv (finish q j status result error currentMs s).2.1) ∧
      (∀ (q error : String) (j : Job) (ttl currentMs : Int) (s : Store),
        QueuedZeroInv s → QueuedZeroInv (abort q j error ttl currentMs s).1) ∧
      (∀ (q : String) (j : Job) (error : Option String) (currentMs : Int) (timeNow : ℚ)
        (s : Store),
        QueuedZeroInv s →
        (j.nextRetryDelay = 0 ∧ j.scheduled = 0) ∨
          (j.nextRetryDelay ≠ 0 ∧ s.queued.count j.id ≤ 1) →
        QueuedZeroInv (retry q j error currentMs timeNow s).2.1) :=
  ⟨c1EnqueuePreserves, c1SchedulePreserves, c1DequeuePreserves, c1FinishPreserves,
    c1AbortPreserves, c1RetryPreserves⟩

/-- The deferred job whose no-delay retry breaks the invariant. -/
def c1Job : Job := { id := jobIdOf "q" "k1", scheduled := 5 }

/-- A store where `c1Job` has been dequeued (active, scored 5 from its
deferred enqueue). The invariant holds: `queued` is empty. -/
def c1Store : Store := { incomplete := [(c1Job.id, 5)], active := [c1Job.id] }

/-- C1 counterexample: retrying the dequeued deferred job (no retry
delay, `scheduled` = 5) right-pushes its id onto `queued` while ZADDing it
back into `incomplete` with score `job.scheduled` = 5, so after this
completed retry the id is in `queued` but its `incomplete` score is 5,
not 0 — the claimed invariant fails. -/
theorem c1_counterexample :
    QueuedZeroInv c1Store ∧
      c1Job.id ∈ (retry "q" c1Job none 0 0 c1Store).2.1.queued ∧
      alookup (retry "q" c1Job none 0 0 c1Store).2.1.incomplete c1Job.id = some 5 ∧
      ¬ QueuedZeroInv (retry "q" c1Job none 0 0 c1Store).2.1 :=
  ⟨by decide, by decide, by decide, by decide⟩

/-- The immediate job used by the C1 witness. -/
def c1JobW : Job := { id := jobIdOf "q" "k0" }

/-- A store satisfying the invariant with the witness job queued. -/
def c1StoreW : Store := { incomplete := [(c1JobW.id, 0)], queued := [c1JobW.id] }

/-- C1 witness: every conjunct of the amended invariant theorem applied at
concrete stores, with each side condition discharged by evaluation. -/
theorem c1_queued_zero_invariant_amended_witness :
    QueuedZeroInv c1StoreW ∧
      QueuedZeroInv (enqueue "q" ([] : List (Job → Unit → Except Unit Unit)) c1JobW 0 ()
        c1StoreW).2.1 ∧
      QueuedZeroInv (schedule 1 10 c1StoreW).2 ∧
      QueuedZeroInv (dequeue c1StoreW).2 ∧
      QueuedZeroInv (finish "q" c1Job .complete none none 0 c1StoreW).2.1 ∧
      QueuedZeroInv (abort "q" c1JobW "stop" 5 0 c1StoreW).1 ∧
      QueuedZeroInv (retry "q" c1JobW none 0 0 c1StoreW).2.1 :=
  ⟨by decide,
    (c1_queued_zero_invariant_amended).1 Unit Unit "q" [] c1JobW 0 () c1StoreW (by decide),
    (c1_queued_zero_invariant_amended).2.1 1 10 c1StoreW (by decide),
    (c1_queued_zero_invariant_amended).2.2.1 c1StoreW (by decide),
    (c1_queued_zero_invariant_amended).2.2.2.1 "q" c1Job .complete none none 0 c1StoreW
      (by decide) (by decide),
    (c1_queued_zero_invariant_amended).2.2.2.2.1 "q" "stop" c1JobW 5 0 c1StoreW (by decide),
    (c1_queued_zero_invariant_amended).2.2.2.2.2 "q" c1JobW none 0 0 c1StoreW (by decide)
      (.inl (by decide))⟩

/-- The job record finish writes when sweep aborts a stale job: status
ABORTED, error "swept", result cleared, completed stamped (progress is
untouched since the status is not COMPLETE). -/
def sweepFinished (j : Job) (currentMs : Int) : Job :=
  { j with status := .aborted, result := none, error := some "swept", completed := currentMs }

/-- Whether the sweep loop counts a prefetched record as swept: a falsy
record always is; a deserialized job is swept when its status is not
ACTIVE or it is stuck. -/
def sweptB (q : String) (currentMs : Int) (b : Option JobBytes) : Bool :=
  match deserialize q b with
  | .error _ => false
  | .ok none => true
  | .ok (some j) => j.status != .active || j.stuck currentMs

theorem finish_swept_job (q : String) (j : Job) (currentMs : Int) (s : Store) :
    (finish q j .aborted none (some "swept") currentMs s).1 = sweepFinished j currentMs := by
  simp [finish, sweepFinished]

theorem staleCond {j : Job} {cur : Int} :
    (j.status != .active || j.stuck cur) = true ↔
      ¬ (j.status = .active ∧ j.stuck cur = false) := by
  rcases hs : j.stuck cur <;> by_cases ha : j.status = .active <;> simp [ha, hs]

theorem sweepLoop_frame (q : String) (currentMs : Int) :
    ∀ (ps : List (String × Option JobBytes)) (s : Store) (sw : List String) (s' : Store),
      sweepLoop q currentMs ps s = .ok (sw, s') →
      (∀ p ∈ ps, ∀ jj, deserialize q p.2 = .ok (some jj) → jj.id = p.1) →
      ∀ id, id ∉ ps.map Prod.fst →
        alookup s'.records id = alookup s.records id ∧
        alookup s'.incomplete id = alookup s.incomplete id ∧
        (id ∈ s'.active ↔ id ∈ s.active) ∧
        (∀ m ∈ s.published, m ∈ s'.published) := by
  intro ps
  induction ps with
  | nil =>
      intro s sw s' h hjid id hid
      simp only [sweepLoop, Except.ok.injEq, Prod.mk.injEq] at h
      rw [← h.2]
      exact ⟨rfl, rfl, Iff.rfl, fun m hm => hm⟩
  | cons p rest ih =>
      obtain ⟨id₀, b₀⟩ := p
      intro s sw s' h hjid id hid
      have hne : id ≠ id₀ := by
        intro hh
        exact hid (hh ▸ List.mem_cons_self _ _)
      have hidr : id ∉ rest.map Prod.fst := by
        intro hh
        exact hid (List.mem_cons_of_mem _ hh)
      have hjidr : ∀ p ∈ rest, ∀ jj, deserialize q p.2 = .ok (some jj) → jj.id = p.1 :=
        fun p hp => hjid p (List.mem_cons_of_mem _ hp)
      cases hd : deserialize q b₀ with
      | error e => simp [sweepLoop, hd] at h
      | ok ob =>
          cases ob with
          | none =>
              simp only [sweepLoop, hd] at h
              cases hrec : sweepLoop q currentMs rest
                  { s with active := lremAll s.active id₀,
                           incomplete := aremove s.incomplete id₀ } with
              | error e => rw [hrec] at h; simp [Except.map] at h
              | ok r =>
                  rw [hrec] at h
                  obtain ⟨sw₁, s₁'⟩ := r
                  simp only [Except.map, Except.ok.injEq, Prod.mk.injEq] at h
                  obtain ⟨-, hs'⟩ := h
                  subst hs'
                  obtain ⟨h1, h2, h3, h4⟩ := ih _ _ _ hrec hjidr id hidr
                  refine ⟨h1, ?_, ?_, ?_⟩
                  · rw [h2]
                    exact alookup_aremove_ne _ hne
                  · rw [h3]
                    simp only [mem_lremAll]
                    exact ⟨fun hh => hh.1, fun hh => ⟨hh, hne⟩⟩
                  · intro m hm
                    exact h4 m hm
          | some j =>
              have hj0 : j.id = id₀ := hjid (id₀, b₀) (List.mem_cons_self _ _) j hd
              by_cases hb : (j.status != .active || j.stuck currentMs) = true
              · simp only [sweepLoop, hd, hb, if_true] at h
                cases hrec : sweepLoop q currentMs rest
                    (finish q j .aborted none (some "swept") currentMs s).2.1 with
                | error e => rw [hrec] at h; simp [Except.map] at h
                | ok r =>
                    rw [hrec] at h
                    obtain ⟨sw₁, s₁'⟩ := r
                    simp only [Except.map, Except.ok.injEq, Prod.mk.injEq] at h
                    obtain ⟨-, hs'⟩ := h
                    subst hs'
                    obtain ⟨h1, h2, h3, h4⟩ := ih _ _ _ hrec hjidr id hidr
                    have hnej : id ≠ j.id := by rw [hj0]; exact hne
                    refine ⟨?_, ?_, ?_, ?_⟩
                    · rw [h1]
                      simp only [finish]
                      split
                      · exact alookup_aset_ne _ _ hnej
                      · split
                        · exact alookup_aset_ne _ _ hnej
                        · exact alookup_aremove_ne _ hnej
                    · rw [h2]
                      simp only [finish]
                      exact alookup_aremove_ne _ hnej
                    · rw [h3]
                      simp only [finish, lremOne]
                      exact List.mem_erase_of_ne hnej
                    · intro m hm
                      apply h4
                      simp only [finish]
                      exact List.mem_append_left _ hm
              · simp only [sweepLoop, hd, hb, if_false] at h
                exact ih _ _ _ h hjidr id hidr

theorem sweepLoop_spec (q : String) (currentMs : Int) :
    ∀ (ps : List (String × Option JobBytes)) (s : Store),
      (∀ p ∈ ps, ∃ r, deserialize q p.2 = .ok r) →
      ((ps.map Prod.fst).Nodup) →
      (∀ p ∈ ps, ∀ jj, deserialize q p.2 = .ok (some jj) → jj.id = p.1) →
      (∀ p ∈ ps, p.1 ∈ s.active) →
      ∃ sw s', sweepLoop q currentMs ps s = .ok (sw, s') ∧
        sw = (ps.filter (fun p => sweptB q currentMs p.2)).map Prod.fst ∧
        ∀ p ∈ ps,
          (deserialize q p.2 = .ok none →
            p.1 ∈ sw ∧ p.1 ∉ s'.active ∧ alookup s'.incomplete p.1 = none) ∧
          (∀ j, deserialize q p.2 = .ok (some j) →
            (¬ (j.status = .active ∧ j.stuck currentMs = false) →
              p.1 ∈ sw ∧ (p.1, Status.aborted) ∈ s'.published ∧
              alookup s'.records p.1 =
                (if 0 ≤ j.ttl then some (serialize q (sweepFinished j currentMs)) else none)) ∧
            ((j.status = .active ∧ j.stuck currentMs = false) →
              p.1 ∉ sw ∧ p.1 ∈ s'.active ∧
              alookup s'.records p.1 = alookup s.records p.1 ∧
              alookup s'.incomplete p.1 = alookup s.incomplete p.1)) := by
  intro ps
  induction ps with
  | nil =>
      intro s hex hnd hjid hact
      exact ⟨[], s, rfl, rfl, fun p hp => absurd hp (List.not_mem_nil p)⟩
  | cons p₀ rest ih =>
      obtain ⟨id₀, b₀⟩ := p₀
      intro s hex hnd hjid hact
      have hndr : (rest.map Prod.fst).Nodup := (List.nodup_cons.mp hnd).2
      have hid₀r : id₀ ∉ rest.map Prod.fst := (List.nodup_cons.mp hnd).1
      have hexr : ∀ p ∈ rest, ∃ r, deserialize q p.2 = .ok r :=
        fun p hp => hex p (List.mem_cons_of_mem _ hp)
      have hjidr : ∀ p ∈ rest, ∀ jj, deserialize q p.2 = .ok (some jj) → jj.id = p.1 :=
        fun p hp => hjid p (List.mem_cons_of_mem _ hp)
      have hner : ∀ p ∈ rest, p.1 ≠ id₀ := by
        intro p hp hh
        exact hid₀r (hh ▸ List.mem_map.mpr ⟨p, hp, rfl⟩)
      cases hd : deserialize q b₀ with
      | error e =>
          obtain ⟨r, hr⟩ := hex (id₀, b₀) (List.mem_cons_self _ _)
          rw [hd] at hr
          cases hr
      | ok ob =>
          cases ob with
          | none =>
              have hactr : ∀ p ∈ rest, p.1 ∈
                  ({ s with active := lremAll s.active id₀,
                            incomplete := aremove s.incomplete id₀ } : Store).active := by
                intro p hp
                exact mem_lremAll.mpr ⟨hact p (List.mem_cons_of_mem _ hp), hner p hp⟩
              obtain ⟨sw₁, s', hrec, hsw₁, hfacts⟩ := ih _ hexr hndr hjidr hactr
              have hfr := sweepLoop_frame q currentMs rest _ sw₁ s' hrec hjidr
              refine ⟨id₀ :: sw₁, s', ?_, ?_, ?_⟩
              · simp [sweepLoop, hd, hrec, Except.map]
              · have hsb : sweptB q currentMs b₀ = true := by simp [sweptB, hd]
                simp [List.filter_cons, hsb, hsw₁]
              · intro p hp
                rcases List.mem_cons.mp hp with hph | hp'
                · subst hph
                  constructor
                  · intro _
                    refine ⟨List.mem_cons_self _ _, ?_, ?_⟩
                    · rw [(hfr id₀ hid₀r).2.2.1]
                      intro hh
                      exact (mem_lremAll.mp hh).2 rfl
                    · rw [(hfr id₀ hid₀r).2.1]
                      exact alookup_aremove_self _ _
                  · intro j hj
                    rw [hd] at hj
                    simp at hj
                · have hf := hfacts p hp'
                  have hne2 := hner p hp'
                  constructor
                  · intro hnone
                    obtain ⟨m1, m2, m3⟩ := hf.1 hnone
                    exact ⟨List.mem_cons_of_mem _ m1, m2, m3⟩
                  · intro j' hj'
                    constructor
                    · intro hcond
                      obtain ⟨m1, m2, m3⟩ := (hf.2 j' hj').1 hcond
                      exact ⟨List.mem_cons_of_mem _ m1, m2, m3⟩
                    · intro hcond
                      obtain ⟨ha1, ha2, ha3, ha4⟩ := (hf.2 j' hj').2 hcond
                      refine ⟨?_, ha2, ha3, ha4.trans (alookup_aremove_ne _ hne2)⟩
                      intro hmem
                      rcases List.mem_cons.mp hmem with hh | hh
                      · exact hne2 hh
                      · exact ha1 hh
          | some j =>
              have hj0 : j.id = id₀ := hjid (id₀, b₀) (List.mem_cons_self _ _) j hd
              by_cases hb : (j.status != .active || j.stuck currentMs) = true
              · have hactr : ∀ p ∈ rest, p.1 ∈
                    (finish q j .aborted none (some "swept") currentMs s).2.1.active := by
                  intro p hp
                  have h2 : p.1 ≠ j.id := by rw [hj0]; exact hner p hp
                  simp only [finish, lremOne]
                  exact (List.mem_erase_of_ne h2).mpr (hact p (List.mem_cons_of_mem _ hp))
                obtain ⟨sw₁, s', hrec, hsw₁, hfacts⟩ := ih _ hexr hndr hjidr hactr
                have hfr := sweepLoop_frame q currentMs rest _ sw₁ s' hrec hjidr
                refine ⟨id₀ :: sw₁, s', ?_, ?_, ?_⟩
                · simp [sweepLoop, hd, hb, hrec, Except.map]
                · have hsb : sweptB q currentMs b₀ = true := by simp [sweptB, hd, hb]
                  simp [List.filter_cons, hsb, hsw₁]
                · intro p hp
                  rcases List.mem_cons.mp hp with hph | hp'
                  · subst hph
                    constructor
                    · intro hnone
                      rw [hd] at hnone
                      simp at hnone
                    · intro j' hj'
                      rw [hd] at hj'
                      simp only [Except.ok.injEq, Option.some.injEq] at hj'
                      subst hj'
                      constructor
                      · intro _
                        refine ⟨List.mem_cons_self _ _, ?_, ?_⟩
                        · apply (hfr id₀ hid₀r).2.2.2
                          simp only [finish]
                          rw [← hj0]
                          exact List.mem_append_right _ (List.mem_singleton.mpr rfl)
                        · rw [(hfr id₀ hid₀r).1, ← hj0]
                          have hac : Status.aborted ≠ Status.complete := by decide
                          by_cases hgt : 0 < j.ttl
                          · rw [if_pos (le_of_lt hgt)]
                            simp only [finish, if_pos hgt]
                            rw [alookup_aset_self]
                            simp [sweepFinished, hac]
                          · by_cases hz : j.ttl = 0
                            · rw [if_pos (le_of_eq hz.symm)]
                              simp only [finish, if_neg hgt, if_pos hz]
                              rw [alookup_aset_self]
                              simp [sweepFinished, hac]
                            · have hlt : ¬ (0 : Int) ≤ j.ttl := by omega
                              rw [if_neg hlt]
                              simp only [finish, if_neg hgt, if_neg hz]
                              exact alookup_aremove_self _ _
                      · intro hcond
                        exact absurd hcond (staleCond.mp hb)
                  · have hf := hfacts p hp'
                    have hne0 := hner p hp'
                    have hne2 : p.1 ≠ j.id := by rw [hj0]; exact hne0
                    constructor
                    · intro hnone
                      obtain ⟨m1, m2, m3⟩ := hf.1 hnone
                      exact ⟨List.mem_cons_of_mem _ m1, m2, m3⟩
                    · intro j' hj'
                      constructor
                      · intro hcond
                        obtain ⟨m1, m2, m3⟩ := (hf.2 j' hj').1 hcond
                        exact ⟨List.mem_cons_of_mem _ m1, m2, m3⟩
                      · intro hcond
                        obtain ⟨ha1, ha2, ha3, ha4⟩ := (hf.2 j' hj').2 hcond
                        refine ⟨?_, ha2, ?_, ?_⟩
                        · intro hmem
                          rcases List.mem_cons.mp hmem with hh | hh
                          · exact hne0 hh
                          · exact ha1 hh
                        · rw [ha3]
                          simp only [finish]
                          split
                          · exact alookup_aset_ne _ _ hne2
                          · split
                            · exact alookup_aset_ne _ _ hne2
                            · exact alookup_aremove_ne _ hne2
                        · rw [ha4]
                          simp only [finish]
                          exact alookup_aremove_ne _ hne2
              · have hstat : j.status = .active := by
                  by_cases hh : j.status = .active
                  · exact hh
                  · exact absurd (by simp [hh]) hb
                have hstuck : j.stuck currentMs = false := by
                  cases hv : j.stuck currentMs
                  · rfl
                  · exact absurd (by simp [hv]) hb
                obtain ⟨sw₁, s', hrec, hsw₁, hfacts⟩ :=
                  ih s hexr hndr hjidr (fun p hp => hact p (List.mem_cons_of_mem _ hp))
                have hfr := sweepLoop_frame q currentMs rest s sw₁ s' hrec hjidr
                refine ⟨sw₁, s', ?_, ?_, ?_⟩
                · simp [sweepLoop, hd, hb, hrec]
                · have hsb : sweptB q currentMs b₀ = false := by
                    simp [sweptB, hd, hstat, hstuck]
                  simp [List.filter_cons, hsb, hsw₁]
                · intro p hp
                  rcases List.mem_cons.mp hp with hph | hp'
                  · subst hph
                    constructor
                    · intro hnone
                      rw [hd] at hnone
                      simp at hnone
                    · intro j' hj'
                      rw [hd] at hj'
                      simp only [Except.ok.injEq, Option.some.injEq] at hj'
                      subst hj'
                      constructor
                      · intro hcond
                        exact absurd ⟨hstat, hstuck⟩ hcond
                      · intro _
                        refine ⟨?_, ?_, ?_, ?_⟩
                        · intro hmem
                          rw [hsw₁] at hmem
                          obtain ⟨pp, hpp, hppe⟩ := List.mem_map.mp hmem
                          exact hid₀r
                            (List.mem_map.mpr ⟨pp, (List.mem_filter.mp hpp).1, hppe⟩)
                        · exact (hfr id₀ hid₀r).2.2.1.mpr
                            (hact (id₀, b₀) (List.mem_cons_self _ _))
                        · exact (hfr id₀ hid₀r).1
                        · exact (hfr id₀ hid₀r).2.1
                  · exact hfacts p hp'

theorem map_fst_pairs (l : List String) (f : String → Option JobBytes) :
    (l.map (fun id => (id, f id))).map Prod.fst = l := by
  induction l with
  | nil => rfl
  | cons a rest ih => simp [ih]

theorem filter_pairs_map_fst (l : List String) (f : String → Option JobBytes)
    (g : Option JobBytes → Bool) :
    ((l.map (fun id => (id, f id))).filter (fun p => g p.2)).map Prod.fst =
      l.filter (fun id => g (f id)) := by
  induction l with
  | nil => rfl
  | cons a rest ih =>
      by_cases h : g (f a)
      · simp [List.filter_cons, h, ih]
      · simp [List.filter_cons, h, ih]

/-- A stored record is well-formed for queue `q` under key `id` when it is
absent, empty, or carries queue name `q` and embedded id `id`. -/
def recordWF (q id : String) : Option JobBytes → Bool
  | none => true
  | some .empty => true
  | some (.data qn jj) => decide (qn = q) && decide (jj.id = id)

/-- C6: a sweep run that acquires the lock classifies each id of the
`active` snapshot exactly once — the returned swept list is exactly the
filter of `active` by the classification predicate — and, per id: a falsy
record gets the id removed from both `active` and `incomplete` and
counted; a record whose status is not ACTIVE or which is stuck is
finished with ABORTED and error "swept" (record rewritten or deleted per
its ttl, aborted published on its channel) and counted; otherwise the
job's record, its `incomplete` score and its `active` membership are left
unchanged and it is not counted. -/
theorem c6_sweep (q : String) (lockTtl currentMs : Int) (s : Store)
    (hlock : s.sweepLock = none)
    (hnd : s.active.Nodup)
    (hwf : ∀ id ∈ s.active, recordWF q id (alookup s.records id) = true) :
    ∃ sw s', sweep q lockTtl currentMs s = .ok (sw, s') ∧
      sw = s.active.filter (fun id => sweptB q currentMs (alookup s.records id)) ∧
      ∀ id ∈ s.active,
        (deserialize q (alookup s.records id) = .ok none →
          id ∈ sw ∧ id ∉ s'.active ∧ alookup s'.incomplete id = none) ∧
        (∀ j, deserialize q (alookup s.records id) = .ok (some j) →
          (¬ (j.status = .active ∧ j.stuck currentMs = false) →
            id ∈ sw ∧ (id, Status.aborted) ∈ s'.published ∧
            alookup s'.records id =
              (if 0 ≤ j.ttl then some (serialize q (sweepFinished j currentMs)) else none)) ∧
          ((j.status = .active ∧ j.stuck currentMs = false) →
            id ∉ sw ∧ id ∈ s'.active ∧
            alookup s'.records id = alookup s.records id ∧
            alookup s'.incomplete id = alookup s.incomplete id)) := by
  have hns : ¬ s.sweepLock.isSome := by simp [hlock]
  have hwf' : ∀ id ∈ s.active, ∀ qn jj,
      alookup s.records id = some (.data qn jj) → qn = q ∧ jj.id = id := by
    intro id hid qn jj hrv
    have hh := hwf id hid
    rw [hrv] at hh
    simp only [recordWF, Bool.and_eq_true, decide_eq_true_eq] at hh
    exact hh
  set ps := sweepFetch { s with sweepLock := some lockTtl } with hps
  have hps' : ps = s.active.map (fun id => (id, alookup s.records id)) := rfl
  have hex : ∀ p ∈ ps, ∃ r, deserialize q p.2 = .ok r := by
    intro p hp
    rw [hps'] at hp
    obtain ⟨id, hid, hpe⟩ := List.mem_map.mp hp
    subst hpe
    cases hrv : alookup s.records id with
    | none => exact ⟨none, by simp [deserialize, hrv]⟩
    | some b =>
        cases b with
        | empty => exact ⟨none, by simp [deserialize, hrv]⟩
        | data qn jj =>
            exact ⟨some jj, by simp [deserialize, hrv, (hwf' id hid qn jj hrv).1]⟩
  have hndp : (ps.map Prod.fst).Nodup := by
    rw [hps', map_fst_pairs]
    exact hnd
  have hjid : ∀ p ∈ ps, ∀ jj, deserialize q p.2 = .ok (some jj) → jj.id = p.1 := by
    intro p hp jj hjj
    rw [hps'] at hp
    obtain ⟨id, hid, hpe⟩ := List.mem_map.mp hp
    subst hpe
    cases hrv : alookup s.records id with
    | none =>
        rw [show (id, alookup s.records id).2 = alookup s.records id from rfl, hrv] at hjj
        simp [deserialize] at hjj
    | some b =>
        cases b with
        | empty =>
            rw [show (id, alookup s.records id).2 = alookup s.records id from rfl, hrv] at hjj
            simp [deserialize] at hjj
        | data qn jj' =>
            rw [show (id, alookup s.records id).2 = alookup s.records id from rfl, hrv] at hjj
            obtain ⟨hq, hjid'⟩ := hwf' id hid qn jj' hrv
            rw [deserialize, if_pos hq] at hjj
            simp only [Except.ok.injEq, Option.some.injEq] at hjj
            subst hjj
            exact hjid'
  have hact : ∀ p ∈ ps, p.1 ∈ ({ s with sweepLock := some lockTtl } : Store).active := by
    intro p hp
    rw [hps'] at hp
    obtain ⟨id, hid, hpe⟩ := List.mem_map.mp hp
    subst hpe
    exact hid
  obtain ⟨sw, s', hrun, hsw, hfacts⟩ := sweepLoop_spec q currentMs ps _ hex hndp hjid hact
  refine ⟨sw, s', ?_, ?_, ?_⟩
  · simp only [sweep, hns, Bool.false_eq_true, if_false]
    exact hrun
  · rw [hsw, hps', filter_pairs_map_fst]
  · intro id hid
    exact hfacts (id, alookup s.records id)
      (by rw [hps']; exact List.mem_map.mpr ⟨id, hid, rfl⟩)

/-- The orphan id of the C6 witness (no record stored). -/
def c6A : String := jobIdOf "q" "a"

/-- The stale job of the C6 witness: present in `active` with status
FAILED. -/
def c6JB : Job := { id := jobIdOf "q" "b", status := .failed }

/-- The healthy job of the C6 witness: ACTIVE, 1 second into a 10-second
timeout. -/
def c6JC : Job := { id := jobIdOf "q" "c", status := .active, timeout := 10 }

/-- The C6 witness store: an orphan, a stale job and a healthy job, all in
`active`. -/
def c6Store : Store :=
  { records := [(c6JB.id, .data "q" c6JB), (c6JC.id, .data "q" c6JC)],
    incomplete := [(c6A, 0), (c6JB.id, 0), (c6JC.id, 0)],
    active := [c6A, c6JB.id, c6JC.id] }

/-- C6 witness: sweeping the concrete store counts exactly the orphan and
the stale job, in snapshot order. -/
theorem c6_sweep_witness :
    c6Store.sweepLock = none ∧ c6Store.active.Nodup ∧
      (∀ id ∈ c6Store.active, recordWF "q" id (alookup c6Store.records id) = true) ∧
      (sweep "q" 60 1000 c6Store).toOption.map Prod.fst = some [c6A, c6JB.id] := by
  refine ⟨rfl, by decide, by decide, ?_⟩
  obtain ⟨sw, s', hrun, hsw, -⟩ := c6_sweep "q" 60 1000 c6Store rfl (by decide) (by decide)
  rw [hrun]
  simp only [Except.toOption, Option.map]
  rw [hsw]
  decide

end Saq
